import Mathlib

/-!
Verification of the oss-rebuild core components.

This file embeds, in Lean, the parts of the repository that the verified
properties are about:

* the rebuild data model (Target, BuildEnv, FileWithChecksum, Instructions)
  and the Debian `DebianPackage.GenerateFor` strategy compiler (the
  implementation file of the Debian strategy is not part of the provided
  sources, only its test `pkg/rebuild/debian/strategy_test.go`; the
  generator is therefore modelled from the specification and anchored,
  byte for byte, on the expected outputs of that test);
* the bounded-concurrency `Pipe` primitive, as a labeled transition system
  (its implementation is likewise absent from the provided sources and is
  modelled from the specification);
* the IDE command `Registry` from `tools/ctl/ide/commandreg/registry.go`;
* the JAR manifest `Section` from the archive manifest parser.
-/

namespace Rebuild

/-- Modelled from the spec: `Ecosystem` is the enumerated ecosystem tag of the
rebuild data model (the `rebuild` package itself is not among the provided
source files). Only the Debian variant is exercised here. -/
inductive Ecosystem where
  | debian
  | npm
  | pypi
  | cratesio
  | maven
deriving DecidableEq

/-- Modelled from the spec: `FileWithChecksum` pairs one fetchable input URL
with its expected integrity hash (MD5 for the Debian ecosystem). The Go zero
value has both fields empty. -/
structure FileWithChecksum where
  URL : String := ""
  MD5 : String := ""
deriving DecidableEq

/-- Modelled from the spec: `Target` is the immutable identity of one rebuild
request (ecosystem, package name, version string, published artifact name). -/
structure Target where
  Ecosystem : Ecosystem
  Package : String
  Version : String
  Artifact : String
deriving DecidableEq

/-- Modelled from the spec: `BuildEnv` is read-only configuration affecting
recipe generation (environment pinning); the Debian generator does not read
it. -/
structure BuildEnv where
  TimewarpHost : String := ""
  HasRepo : Bool := false
deriving DecidableEq

/-- Modelled from the spec: `Instructions` is the compiled build recipe —
three textual shell stages, the ecosystem-constant system tool list, and the
expected output location. -/
structure Instructions where
  Source : String
  Deps : String
  Build : String
  SystemDeps : List String
  OutputPath : String
deriving DecidableEq

/-- Modelled from the spec: `DebianPackage` is the Debian strategy variant —
located-file references (control file, origin tarball, packaging-diff
tarball, native tarball; absent files are Go zero values with empty URL)
plus the ordered build-dependency `Requirements` list. -/
structure DebianPackage where
  DSC : FileWithChecksum := {}
  Orig : FileWithChecksum := {}
  Debian : FileWithChecksum := {}
  Native : FileWithChecksum := {}
  Requirements : List String := []
deriving DecidableEq

/-- Splits a character list on the underscore character; like Go and the
regex grammar, the separator is dropped and empty components are kept. -/
def splitUnderscore : List Char → List (List Char)
  | [] => [[]]
  | x :: xs =>
    match splitUnderscore xs with
    | [] => [[]]
    | w :: ws => if x = '_' then [] :: w :: ws else (x :: w) :: ws

/-- Modelled from the spec: strips the Debian binary-only rebuild
(build-iteration) suffix `+b<digits>` from a version string, returning the
base version, or `none` when the string does not end in such a suffix. This
realizes the `\x2bb[0-9]+` tail of the binary version pattern together with
the greedy nonempty `nonbinary_version` group preceding it. -/
def stripBinSuffix (version : List Char) : Option String :=
  let r := version.reverse
  let ds := r.takeWhile Char.isDigit
  if ds.isEmpty then none
  else
    match r.drop ds.length with
    | 'b' :: '+' :: base => if base.isEmpty then none else some (String.mk base.reverse)
    | _ => none

/-- Modelled from the spec: the single pattern match of `binaryVersionRegex`
against an artifact filename, exposing the named groups `name`,
`nonbinary_version` and `arch`. An artifact matches exactly when it has the
shape `<name>_<base>\x2bb<digits>_<arch>.deb` with nonempty, underscore-free
components. Returns `(name, nonbinary_version, arch)` on a match. -/
def parseBinaryArtifact (artifact : String) : Option (String × String × String) :=
  match splitUnderscore artifact.toList with
  | [name, version, archdeb] =>
    if name.isEmpty then none
    else
      match archdeb.reverse with
      | 'b' :: 'e' :: 'd' :: '.' :: archRev =>
        if archRev.isEmpty then none
        else
          match stripBinSuffix version with
          | some base => some (String.mk name, base, String.mk archRev.reverse)
          | none => none
      | _ => none
  | _ => none

/-- Modelled from the spec: the located files fetched by the Source stage, in
fixed order — control (DSC) file first, then the native tarball for a native
package, or the origin tarball followed by the packaging-diff tarball for a
non-native package. `none` when neither a native tarball nor an
origin+packaging-diff pair is present (the generation-error case). -/
def DebianPackage.locatedFiles (s : DebianPackage) : Option (List FileWithChecksum) :=
  if s.Native.URL ≠ "" then some [s.DSC, s.Native]
  else if s.Orig.URL ≠ "" ∧ s.Debian.URL ≠ "" then some [s.DSC, s.Orig, s.Debian]
  else none

/-- Modelled from the spec: the constant Debian build-tool invocation of the
Build stage. -/
def debianBuildScript : String := "set -eux\ncd */\ndebuild -b -uc -us"

/-- Modelled from the spec: the Build stage — enter the extracted directory
and invoke the build tool; when the artifact matches the binary-only rebuild
grammar, append a rename moving the tool's default output (package name,
base version, architecture) to the target artifact. -/
def debianBuildStage (t : Target) : String :=
  match parseBinaryArtifact t.Artifact with
  | some (_, base, arch) =>
    debianBuildScript ++ "\nmv /src/" ++ t.Package ++ "_" ++ base ++ "_" ++ arch
      ++ ".deb /src/" ++ t.Artifact
  | none => debianBuildScript

/-- Modelled from the spec: the ecosystem-constant system dependency list of
the Debian strategy. -/
def debianSystemDeps : List String := ["wget", "git", "build-essential", "fakeroot", "devscripts"]

/-- Modelled from the spec: `DebianPackage.GenerateFor` compiles a Debian
strategy and target into Instructions — fetch lines and extraction for the
Source stage, index refresh plus space-joined install line for the Deps
stage, build-tool invocation with optional binary-rebuild rename for the
Build stage, constant SystemDeps, and OutputPath equal to the artifact. The
Debian strategy implementation file is absent from the provided sources;
this definition reproduces, byte for byte, the expected outputs of
`pkg/rebuild/debian/strategy_test.go`. -/
def DebianPackage.GenerateFor (s : DebianPackage) (t : Target) (_env : BuildEnv) :
    Except String Instructions :=
  match s.locatedFiles with
  | none => .error "neither native tarball nor origin+packaging-diff pair located"
  | some files =>
    .ok
      { Source := "set -eux\n"
          ++ String.intercalate "\n" (files.map (fun f => "wget " ++ f.URL))
          ++ "\n\ndpkg-source -x --no-check $(basename \"" ++ s.DSC.URL ++ "\")"
        Deps := "set -eux\napt update\napt install -y " ++ String.intercalate " " s.Requirements
        Build := debianBuildStage t
        SystemDeps := debianSystemDeps
        OutputPath := t.Artifact }

/-- The StandardPackage strategy fixture of `strategy_test.go`. -/
def stdStrategy : DebianPackage :=
  { DSC := { URL := "https://example.com/pkg_1.0-1.dsc", MD5 := "abc123" }
    Orig := { URL := "https://example.com/pkg_1.0.orig.tar.gz", MD5 := "def456" }
    Debian := { URL := "https://example.com/pkg_1.0-1.debian.tar.xz", MD5 := "ghi789" }
    Requirements := ["build-dep1", "build-dep2"] }

/-- The StandardPackage target fixture of `strategy_test.go`. -/
def stdTarget : Target :=
  { Ecosystem := .debian, Package := "pkg", Version := "1.0-1", Artifact := "pkg_1.0-1_amd64.deb" }

/-- The BinaryOnlyRebuild strategy fixture of `strategy_test.go` (no
requirements). -/
def binStrategy : DebianPackage :=
  { DSC := { URL := "https://example.com/pkg_1.0-1.dsc", MD5 := "abc123" }
    Orig := { URL := "https://example.com/pkg_1.0.orig.tar.gz", MD5 := "def456" }
    Debian := { URL := "https://example.com/pkg_1.0-1.debian.tar.xz", MD5 := "ghi789" } }

/-- The BinaryOnlyRebuild target fixture of `strategy_test.go`. -/
def binTarget : Target :=
  { Ecosystem := .debian, Package := "pkg", Version := "1.0-1+b1"
    Artifact := "pkg_1.0-1+b1_amd64.deb" }

/-- The NativePackage strategy fixture of `strategy_test.go`. -/
def nativeStrategy : DebianPackage :=
  { DSC := { URL := "https://example.com/pkg_1.0.dsc", MD5 := "abc123" }
    Native := { URL := "https://example.com/pkg_1.0.tar.gz", MD5 := "def456" }
    Requirements := ["build-dep1"] }

/-- The NativePackage target fixture of `strategy_test.go`. -/
def nativeTarget : Target :=
  { Ecosystem := .debian, Package := "pkg", Version := "1.0", Artifact := "pkg_1.0_amd64.deb" }

/-- The expected Instructions of the StandardPackage test case, verbatim from
`strategy_test.go`. -/
def stdWant : Instructions :=
  { Source := "set -eux\nwget https://example.com/pkg_1.0-1.dsc\nwget https://example.com/pkg_1.0.orig.tar.gz\nwget https://example.com/pkg_1.0-1.debian.tar.xz\n\ndpkg-source -x --no-check $(basename \"https://example.com/pkg_1.0-1.dsc\")"
    Deps := "set -eux\napt update\napt install -y build-dep1 build-dep2"
    Build := "set -eux\ncd */\ndebuild -b -uc -us"
    SystemDeps := ["wget", "git", "build-essential", "fakeroot", "devscripts"]
    OutputPath := "pkg_1.0-1_amd64.deb" }

/-- The expected Instructions of the BinaryOnlyRebuild test case, verbatim
from `strategy_test.go`. -/
def binWant : Instructions :=
  { Source := "set -eux\nwget https://example.com/pkg_1.0-1.dsc\nwget https://example.com/pkg_1.0.orig.tar.gz\nwget https://example.com/pkg_1.0-1.debian.tar.xz\n\ndpkg-source -x --no-check $(basename \"https://example.com/pkg_1.0-1.dsc\")"
    Deps := "set -eux\napt update\napt install -y "
    Build := "set -eux\ncd */\ndebuild -b -uc -us\nmv /src/pkg_1.0-1_amd64.deb /src/pkg_1.0-1+b1_amd64.deb"
    SystemDeps := ["wget", "git", "build-essential", "fakeroot", "devscripts"]
    OutputPath := "pkg_1.0-1+b1_amd64.deb" }

/-- The expected Instructions for the BinaryOnlyRebuild strategy applied to
the non-binary (suffix-stripped) target, used by the round-trip scenario. -/
def binNonbinaryWant : Instructions :=
  { Source := "set -eux\nwget https://example.com/pkg_1.0-1.dsc\nwget https://example.com/pkg_1.0.orig.tar.gz\nwget https://example.com/pkg_1.0-1.debian.tar.xz\n\ndpkg-source -x --no-check $(basename \"https://example.com/pkg_1.0-1.dsc\")"
    Deps := "set -eux\napt update\napt install -y "
    Build := "set -eux\ncd */\ndebuild -b -uc -us"
    SystemDeps := ["wget", "git", "build-essential", "fakeroot", "devscripts"]
    OutputPath := "pkg_1.0-1_amd64.deb" }

end Rebuild

namespace Pipe

/-- Modelled from the spec: the observable state of one Pipe stage (the
`pipe` package implementation is not among the provided source files). A
stage owns its not-yet-pulled input (`pending`), the in-flight `fn`
invocations of its workers (`busy`, each holding the emissions the
invocation has not yet forwarded), the output forwarded so far (`emitted`),
the log of inputs on which `fn` has been invoked (`calls`, in invocation
order), the number of `fn` invocations that have returned (`retd`), and
whether the stage's output has been closed (`closed`). -/
structure PState (α β : Type) where
  pending : List α
  busy : List (List β)
  emitted : List β
  calls : List α
  retd : Nat
  closed : Bool

/-- Modelled from the spec: the transitions of a Pipe stage with parallelism
`n` and transform `fn`. A worker may pull the next input item (bounded by
`n` concurrent invocations), forward one emission of an in-flight
invocation to the shared output, or return from an invocation whose
emissions are exhausted; the stage closes its output only when the input is
fully drained and every worker has returned — a join, not a race. Worker
scheduling is the nondeterministic choice of the position inside `busy`. -/
inductive Step (n : Nat) (fn : α → List β) : PState α β → PState α β → Prop
  | pull (a : α) (rest : List α) (busy : List (List β)) (emitted : List β)
      (calls : List α) (retd : Nat) (hn : busy.length < n) :
      Step n fn ⟨a :: rest, busy, emitted, calls, retd, false⟩
        ⟨rest, busy ++ [fn a], emitted, calls ++ [a], retd, false⟩
  | emit (pending : List α) (l1 : List (List β)) (b : β) (bs : List β)
      (l2 : List (List β)) (emitted : List β) (calls : List α) (retd : Nat) :
      Step n fn ⟨pending, l1 ++ (b :: bs) :: l2, emitted, calls, retd, false⟩
        ⟨pending, l1 ++ bs :: l2, emitted ++ [b], calls, retd, false⟩
  | ret (pending : List α) (l1 l2 : List (List β)) (emitted : List β)
      (calls : List α) (retd : Nat) :
      Step n fn ⟨pending, l1 ++ [] :: l2, emitted, calls, retd, false⟩
        ⟨pending, l1 ++ l2, emitted, calls, retd + 1, false⟩
  | close (emitted : List β) (calls : List α) (retd : Nat) :
      Step n fn ⟨[], [], emitted, calls, retd, false⟩
        ⟨[], [], emitted, calls, retd, true⟩

/-- Modelled from the spec: `FromSlice(items)` starts a stage that yields
the given items in their original order and closes after the last one; it is
the initial state of the chain. -/
def fromSlice (input : List α) : PState α β :=
  ⟨input, [], [], [], 0, false⟩

/-- A state of the stage reachable from `FromSlice(input)` under some
scheduling of the workers. -/
def Reachable (n : Nat) (fn : α → List β) (input : List α) (s : PState α β) : Prop :=
  Relation.ReflTransGen (Step n fn) (fromSlice input) s

/-- The safety invariant of a Pipe stage: inputs are pulled in order, the
invocation count balances, parallelism is bounded, every emission is
accounted for (as counts, hence as multisets), and a closed stage has
drained its input and joined all workers. -/
def Inv [DecidableEq β] (n : Nat) (fn : α → List β) (input : List α) (s : PState α β) : Prop :=
  s.calls ++ s.pending = input ∧
  s.retd + s.busy.length + s.pending.length = input.length ∧
  s.busy.length ≤ n ∧
  (∀ x, s.emitted.count x + s.busy.flatten.count x + (s.pending.flatMap fn).count x
    = (input.flatMap fn).count x) ∧
  (s.closed = true → s.pending = [] ∧ s.busy = [])

end Pipe

namespace CommandReg

/-- A command bound to a single rebuild, from
`tools/ctl/ide/commandreg/registry.go`. Hotkeys are Go runes, represented by
their scalar value; 0 means no hotkey. `Ctx` and `Rb` abstract the
`context.Context` and `rundex.Rebuild` callback argument types. -/
structure RebuildCmd (Ctx Rb : Type) where
  Short : String
  Hotkey : Nat
  Func : Ctx → Rb → Unit
  DisabledMsg : Option (Unit → String)

/-- A command over a group of rebuilds, from `registry.go`. -/
structure RebuildGroupCmd (Ctx Rb : Type) where
  Short : String
  Func : Ctx → List Rb → Unit
  DisabledMsg : Option (Unit → String)

/-- A command over a benchmark path, from `registry.go`. -/
structure BenchmarkCmd (Ctx : Type) where
  Short : String
  Func : Ctx → String → Unit
  DisabledMsg : Option (Unit → String)

/-- A global command, from `registry.go`; like rebuild commands it may carry
a hotkey. -/
structure GlobalCmd (Ctx : Type) where
  Short : String
  Hotkey : Nat
  Func : Ctx → Unit
  DisabledMsg : Option (Unit → String)

/-- The command registry of `registry.go`: four private command lists. -/
structure Registry (Ctx Rb : Type) where
  rebuildCmds : List (RebuildCmd Ctx Rb) := []
  rebuildGroupCmds : List (RebuildGroupCmd Ctx Rb) := []
  benchmarkCmds : List (BenchmarkCmd Ctx) := []
  globalCmds : List (GlobalCmd Ctx) := []

/-- The hotkey-accumulation loop of `Registry.Validate`: walk the commands
in order, skip hotkey 0, record each new hotkey in the `seen` set and fail
on the first duplicate, with the same message `Validate` formats. -/
def checkHotkeys : List (Nat × String) → List Nat → Except String (List Nat)
  | [], seen => .ok seen
  | (hk, short) :: rest, seen =>
    if hk ≠ 0 then
      if hk ∈ seen then
        .error ("duplicate hotkey: " ++ (Char.ofNat hk).toString ++ " (" ++ short ++ ")")
      else checkHotkeys rest (seen ++ [hk])
    else checkHotkeys rest seen

/-- `Registry.Validate` from `registry.go`: scans the rebuild commands and
then the global commands against one shared hotkey set, failing on the first
nonzero hotkey seen twice. -/
def Registry.Validate (reg : Registry Ctx Rb) : Except String Unit := do
  let seen ← checkHotkeys (reg.rebuildCmds.map (fun c => (c.Hotkey, c.Short))) []
  let _ ← checkHotkeys (reg.globalCmds.map (fun c => (c.Hotkey, c.Short))) seen
  pure ()

/-- `Registry.AddGlobals` from `registry.go`: append, validate, and on
validation failure restore the old list and report the error. The returned
pair is the registry after the call and the Go error (`none` is nil). -/
def Registry.AddGlobals (reg : Registry Ctx Rb) (cmds : List (GlobalCmd Ctx)) :
    Registry Ctx Rb × Option String :=
  let reg' := { reg with globalCmds := reg.globalCmds ++ cmds }
  match reg'.Validate with
  | .error e => (reg, some e)
  | .ok _ => (reg', none)

/-- `Registry.AddRebuildGroups` from `registry.go`. -/
def Registry.AddRebuildGroups (reg : Registry Ctx Rb)
    (cmds : List (RebuildGroupCmd Ctx Rb)) : Registry Ctx Rb × Option String :=
  let reg' := { reg with rebuildGroupCmds := reg.rebuildGroupCmds ++ cmds }
  match reg'.Validate with
  | .error e => (reg, some e)
  | .ok _ => (reg', none)

/-- `Registry.AddRebuilds` from `registry.go`. -/
def Registry.AddRebuilds (reg : Registry Ctx Rb) (cmds : List (RebuildCmd Ctx Rb)) :
    Registry Ctx Rb × Option String :=
  let reg' := { reg with rebuildCmds := reg.rebuildCmds ++ cmds }
  match reg'.Validate with
  | .error e => (reg, some e)
  | .ok _ => (reg', none)

/-- `Registry.AddBenchmarks` from `registry.go`. -/
def Registry.AddBenchmarks (reg : Registry Ctx Rb) (cmds : List (BenchmarkCmd Ctx)) :
    Registry Ctx Rb × Option String :=
  let reg' := { reg with benchmarkCmds := reg.benchmarkCmds ++ cmds }
  match reg'.Validate with
  | .error e => (reg, some e)
  | .ok _ => (reg', none)

/-- A concrete registry holding one rebuild command with hotkey `a`, used to
exercise the duplicate-hotkey rejection. -/
def regEx : Registry Unit Unit :=
  { rebuildCmds := [{ Short := "run", Hotkey := 97, Func := fun _ _ => (), DisabledMsg := none }] }

/-- A global command whose hotkey collides with `regEx`'s rebuild command. -/
def gDup : GlobalCmd Unit :=
  { Short := "dup", Hotkey := 97, Func := fun _ => (), DisabledMsg := none }

/-- A global command with a fresh hotkey. -/
def gOk : GlobalCmd Unit :=
  { Short := "ok", Hotkey := 98, Func := fun _ => (), DisabledMsg := none }

end CommandReg

namespace Archive

/-- A section of a JAR MANIFEST.MF file, from the archive manifest parser:
`Attributes` is the name-to-value mapping (modelled by its lookup function)
and `Order` maintains the original order of attribute names. -/
structure Section where
  Attributes : String → Option String
  Order : List String

/-- `NewSection` creates a section with no attributes. -/
def NewSection : Section :=
  { Attributes := fun _ => none, Order := [] }

/-- `Section.Get` retrieves an attribute value. -/
def Section.Get (s : Section) (name : String) : Option String :=
  s.Attributes name

/-- `Section.Set` adds or updates an attribute while maintaining order: the
name is appended to `Order` only when it was not already present. -/
def Section.Set (s : Section) (name value : String) : Section :=
  match s.Attributes name with
  | some _ => { s with Attributes := fun k => if k = name then some value else s.Attributes k }
  | none =>
    { Attributes := fun k => if k = name then some value else s.Attributes k
      Order := s.Order ++ [name] }

/-- `Section.Delete` removes an attribute: a no-op when the name is absent,
otherwise the name is removed from the mapping and its first occurrence is
removed from `Order` (the Go loop erases one occurrence and breaks). -/
def Section.Delete (s : Section) (name : String) : Section :=
  match s.Attributes name with
  | none => s
  | some _ =>
    { Attributes := fun k => if k = name then none else s.Attributes k
      Order := s.Order.erase name }

/-- One mutation of a section: a `Set` or a `Delete`. -/
inductive Op where
  | set (name value : String)
  | del (name : String)

/-- Applies one mutation to a section. -/
def applyOp (s : Section) : Op → Section
  | .set n v => s.Set n v
  | .del n => s.Delete n

/-- The section obtained from `NewSection` by a sequence of mutations. -/
def runOps (ops : List Op) : Section :=
  ops.foldl applyOp NewSection

/-- The section invariant: `Order` lists exactly the keys of `Attributes`,
each exactly once. -/
def SInv (s : Section) : Prop :=
  s.Order.Nodup ∧ ∀ k, (s.Attributes k).isSome ↔ k ∈ s.Order

end Archive

namespace Rebuild

/-- The model reproduces the StandardPackage expectation of
`strategy_test.go` byte for byte. -/
theorem stdScenario_eq : stdStrategy.GenerateFor stdTarget {} = .ok stdWant := rfl

/-- The model reproduces the BinaryOnlyRebuild expectation of
`strategy_test.go` byte for byte. -/
theorem binScenario_eq : binStrategy.GenerateFor binTarget {} = .ok binWant := rfl

/-- The model reproduces the round-trip non-binary variant of the
BinaryOnlyRebuild fixture. -/
theorem binNonbinaryScenario_eq :
    binStrategy.GenerateFor stdTarget {} = .ok binNonbinaryWant := rfl

/-- Successful generation characterizes the located-file set: the native
path or the origin+packaging-diff path, with the control file first. -/
theorem locatedFiles_cases (s : DebianPackage) (files : List FileWithChecksum)
    (h : s.locatedFiles = some files) :
    (s.Native.URL ≠ "" ∧ files = [s.DSC, s.Native]) ∨
    (s.Native.URL = "" ∧ s.Orig.URL ≠ "" ∧ s.Debian.URL ≠ "" ∧
      files = [s.DSC, s.Orig, s.Debian]) := by
  unfold DebianPackage.locatedFiles at h
  split_ifs at h with h1 h2
  · exact Or.inl ⟨h1, (Option.some_inj.mp h).symm⟩
  · exact Or.inr ⟨not_not.mp h1, h2.1, h2.2, (Option.some_inj.mp h).symm⟩

/-- Successful generation exposes the generated record fields. -/
theorem generateFor_ok_iff (s : DebianPackage) (t : Target) (env : BuildEnv)
    (instr : Instructions) (h : s.GenerateFor t env = .ok instr) :
    ∃ files, s.locatedFiles = some files ∧
      instr = { Source := "set -eux\n" ++ String.intercalate "\n" (files.map (fun f => "wget " ++ f.URL)) ++ "\n\ndpkg-source -x --no-check $(basename \"" ++ s.DSC.URL ++ "\")",
                Deps := "set -eux\napt update\napt install -y " ++ String.intercalate " " s.Requirements,
                Build := debianBuildStage t,
                SystemDeps := debianSystemDeps,
                OutputPath := t.Artifact } := by
  unfold DebianPackage.GenerateFor at h
  cases hfl : s.locatedFiles with
  | none => rw [hfl] at h; exact absurd h (by simp)
  | some files =>
    rw [hfl] at h
    injection h with h
    exact ⟨files, rfl, h.symm⟩

/-- C1: for every valid Debian Target and located-file set, the Source stage
of the Instructions returned by GenerateFor consists of one fetch line per
located file in fixed order — the control (DSC) file first, then the origin
tarball for a non-native package or the native tarball for a native package,
then the packaging-diff tarball when present — followed by a blank line and
an extraction command that references the basename of the control file's
URL. -/
theorem generateFor_source_stage (s : DebianPackage) (t : Target) (env : BuildEnv)
    (instr : Instructions) (h : s.GenerateFor t env = .ok instr) :
    ∃ files, s.locatedFiles = some files ∧
      ((s.Native.URL ≠ "" ∧ files = [s.DSC, s.Native]) ∨
       (s.Native.URL = "" ∧ s.Orig.URL ≠ "" ∧ s.Debian.URL ≠ "" ∧
         files = [s.DSC, s.Orig, s.Debian])) ∧
      instr.Source = "set -eux\n"
        ++ String.intercalate "\n" (files.map (fun f => "wget " ++ f.URL))
        ++ "\n\ndpkg-source -x --no-check $(basename \"" ++ s.DSC.URL ++ "\")" := by
  obtain ⟨files, hfl, hinstr⟩ := generateFor_ok_iff s t env instr h
  exact ⟨files, hfl, locatedFiles_cases s files hfl, by rw [hinstr]⟩

/-- C1 witness: the StandardPackage scenario of `strategy_test.go`
instantiates the Source-stage property for the non-native file set. -/
theorem generateFor_source_stage_witness :
    stdWant.Source = "set -eux\n"
      ++ String.intercalate "\n"
          ([stdStrategy.DSC, stdStrategy.Orig, stdStrategy.Debian].map (fun f => "wget " ++ f.URL))
      ++ "\n\ndpkg-source -x --no-check $(basename \"" ++ stdStrategy.DSC.URL ++ "\")" := by
  obtain ⟨files, hfl, _, hsrc⟩ :=
    generateFor_source_stage stdStrategy stdTarget {} stdWant stdScenario_eq
  have hf : files = [stdStrategy.DSC, stdStrategy.Orig, stdStrategy.Debian] := by
    have hc : stdStrategy.locatedFiles
        = some [stdStrategy.DSC, stdStrategy.Orig, stdStrategy.Debian] := rfl
    rw [hc] at hfl
    exact (Option.some_inj.mp hfl).symm
  rw [hf] at hsrc
  exact hsrc

/-- C2: for every Requirements list, the Deps stage is two fixed lines — a
package-index refresh, then an install line containing exactly the given
dependency names, in the given order, joined with single spaces, never
deduplicated or reordered; an empty Requirements list yields an install line
with a trailing separator and zero names rather than an error. -/
theorem generateFor_deps_stage (s : DebianPackage) (t : Target) (env : BuildEnv)
    (instr : Instructions) (h : s.GenerateFor t env = .ok instr) :
    instr.Deps = "set -eux\napt update\napt install -y "
        ++ String.intercalate " " s.Requirements ∧
      (s.Requirements = [] → instr.Deps = "set -eux\napt update\napt install -y ") := by
  obtain ⟨files, hfl, hinstr⟩ := generateFor_ok_iff s t env instr h
  constructor
  · rw [hinstr]
  · intro hreq
    rw [hinstr, hreq]
    rfl

/-- C2 witness: the BinaryOnlyRebuild scenario has an empty Requirements
list and its install line ends in the trailing separator with zero names. -/
theorem generateFor_deps_stage_witness :
    binWant.Deps = "set -eux\napt update\napt install -y "
        ++ String.intercalate " " binStrategy.Requirements ∧
      binWant.Deps = "set -eux\napt update\napt install -y " := by
  have h := generateFor_deps_stage binStrategy binTarget {} binWant binScenario_eq
  exact ⟨h.1, h.2 rfl⟩

/-- C3: GenerateFor appends a rename (mv) step to the Build stage if and
only if the Target matches the binary-only rebuild grammar (a base version
plus a build-iteration suffix, matched by a single pattern exposing the
groups name, nonbinary_version, and arch); the rename moves the build tool's
default output name (derived from Package, base version, and architecture)
to Artifact, and when there is no match the Build stage contains no rename
step. -/
theorem generateFor_build_rename (s : DebianPackage) (t : Target) (env : BuildEnv)
    (instr : Instructions) (h : s.GenerateFor t env = .ok instr) :
    (∀ name base arch, parseBinaryArtifact t.Artifact = some (name, base, arch) →
        instr.Build = debianBuildScript ++ "\nmv /src/" ++ t.Package ++ "_" ++ base
          ++ "_" ++ arch ++ ".deb /src/" ++ t.Artifact) ∧
      (parseBinaryArtifact t.Artifact = none → instr.Build = debianBuildScript) := by
  obtain ⟨files, hfl, hinstr⟩ := generateFor_ok_iff s t env instr h
  constructor
  · intro name base arch hp
    rw [hinstr]
    show debianBuildStage t = _
    unfold debianBuildStage
    rw [hp]
  · intro hp
    rw [hinstr]
    show debianBuildStage t = _
    unfold debianBuildStage
    rw [hp]

/-- C3 witness: the BinaryOnlyRebuild scenario gains exactly the rename step
of `strategy_test.go`, and the StandardPackage scenario gains none. -/
theorem generateFor_build_rename_witness :
    binWant.Build = debianBuildScript ++ "\nmv /src/" ++ binTarget.Package ++ "_" ++ "1.0-1"
        ++ "_" ++ "amd64" ++ ".deb /src/" ++ binTarget.Artifact ∧
      stdWant.Build = debianBuildScript := by
  constructor
  · exact (generateFor_build_rename binStrategy binTarget {} binWant binScenario_eq).1
      "pkg" "1.0-1" "amd64" rfl
  · exact (generateFor_build_rename stdStrategy stdTarget {} stdWant stdScenario_eq).2 rfl

/-- C6: for every binary-rebuild Target and its corresponding non-binary
Target (same strategy and package, with the build-iteration suffix removed
from Version and Artifact, so that the resulting artifact no longer matches
the binary-rebuild grammar), the Build stage of the non-binary Target plus
the rename step equals, byte for byte, the Build stage of the binary-rebuild
Target. -/
theorem generateFor_binary_roundtrip (s : DebianPackage) (t tn : Target) (env : BuildEnv)
    (name base arch : String) (ib inb : Instructions)
    (hparse : parseBinaryArtifact t.Artifact = some (name, base, arch))
    (hpkg : tn.Package = t.Package)
    (hver : tn.Version = base)
    (hart : tn.Artifact = name ++ "_" ++ base ++ "_" ++ arch ++ ".deb")
    (hnb : parseBinaryArtifact tn.Artifact = none)
    (hb : s.GenerateFor t env = .ok ib)
    (hn : s.GenerateFor tn env = .ok inb) :
    ib.Build = inb.Build ++ "\nmv /src/" ++ t.Package ++ "_" ++ base ++ "_" ++ arch
      ++ ".deb /src/" ++ t.Artifact := by
  obtain ⟨fb, hflb, hib⟩ := generateFor_ok_iff s t env ib hb
  obtain ⟨fn, hfln, hinb⟩ := generateFor_ok_iff s tn env inb hn
  have hbuild_b : ib.Build = debianBuildStage t := by rw [hib]
  have hbuild_n : inb.Build = debianBuildStage tn := by rw [hinb]
  rw [hbuild_b, hbuild_n]
  unfold debianBuildStage
  rw [hparse, hnb]

/-- C6 witness: regenerating the BinaryOnlyRebuild fixture with its
non-binary target and appending the rename step reproduces the
binary-rebuild Build stage of `strategy_test.go`. -/
theorem generateFor_binary_roundtrip_witness :
    binWant.Build = binNonbinaryWant.Build ++ "\nmv /src/" ++ binTarget.Package ++ "_"
      ++ "1.0-1" ++ "_" ++ "amd64" ++ ".deb /src/" ++ binTarget.Artifact :=
  generateFor_binary_roundtrip binStrategy binTarget stdTarget {} "pkg" "1.0-1" "amd64"
    binWant binNonbinaryWant rfl rfl rfl rfl rfl binScenario_eq binNonbinaryScenario_eq

/-- C7: for every Target and BuildEnv for which GenerateFor succeeds, the
OutputPath field of the returned Instructions equals the Target's Artifact
exactly. -/
theorem generateFor_outputPath (s : DebianPackage) (t : Target) (env : BuildEnv)
    (instr : Instructions) (h : s.GenerateFor t env = .ok instr) :
    instr.OutputPath = t.Artifact := by
  obtain ⟨files, hfl, hinstr⟩ := generateFor_ok_iff s t env instr h
  rw [hinstr]

/-- C7 witness: the StandardPackage scenario's OutputPath equals its
artifact name. -/
theorem generateFor_outputPath_witness : stdWant.OutputPath = stdTarget.Artifact :=
  generateFor_outputPath stdStrategy stdTarget {} stdWant stdScenario_eq

/-- C8: GenerateFor is deterministic and pure — two invocations with equal
(Strategy, Target, BuildEnv) inputs return identical Instructions; as a
total Lean function of exactly these three arguments, it can consult no
network, filesystem, or other ambient state. -/
theorem generateFor_deterministic (s s' : DebianPackage) (t t' : Target) (e e' : BuildEnv)
    (hs : s = s') (ht : t = t') (he : e = e') :
    s.GenerateFor t e = s'.GenerateFor t' e' := by
  subst hs
  subst ht
  subst he
  rfl

/-- C8 witness: determinism instantiated at the StandardPackage fixture. -/
theorem generateFor_deterministic_witness :
    stdStrategy.GenerateFor stdTarget {} = stdStrategy.GenerateFor stdTarget {} :=
  generateFor_deterministic stdStrategy stdStrategy stdTarget stdTarget {} {} rfl rfl rfl

end Rebuild

namespace Pipe

/-- The invariant holds at the initial `FromSlice` state. -/
theorem inv_init [DecidableEq β] (n : Nat) (fn : α → List β) (input : List α) :
    Inv n fn input (fromSlice input) := by
  refine ⟨rfl, by simp [fromSlice], by simp [fromSlice], ?_, by simp [fromSlice]⟩
  intro x
  simp [fromSlice]

/-- Every transition of a Pipe stage preserves the safety invariant. -/
theorem inv_step [DecidableEq β] {n : Nat} {fn : α → List β} {input : List α}
    {s s' : PState α β} (hi : Inv n fn input s) (hs : Step n fn s s') :
    Inv n fn input s' := by
  obtain ⟨h1, h2, h3, h4, h5⟩ := hi
  cases hs with
  | pull a rest busy emitted calls retd hn =>
    refine ⟨?_, ?_, ?_, ?_, by simp⟩
    · rw [List.append_assoc]
      simpa using h1
    · simp [List.length_append] at h2 hn ⊢
      omega
    · simp [List.length_append] at h3 hn ⊢
      omega
    · intro x
      have h4x := h4 x
      simp [List.flatten_append, List.flatMap_cons, List.count_append] at h4x ⊢
      omega
  | emit pending l1 b bs l2 emitted calls retd =>
    refine ⟨h1, ?_, ?_, ?_, by simp⟩
    · simp [List.length_append] at h2 ⊢
      omega
    · simp [List.length_append] at h3 ⊢
      omega
    · intro x
      have h4x := h4 x
      simp [List.flatten_append, List.count_append, List.count_cons] at h4x ⊢
      by_cases hxb : b = x <;> simp [hxb] at h4x ⊢ <;> omega
  | ret pending l1 l2 emitted calls retd =>
    refine ⟨h1, ?_, ?_, ?_, by simp⟩
    · simp [List.length_append] at h2 ⊢
      omega
    · simp [List.length_append] at h3 ⊢
      omega
    · intro x
      have h4x := h4 x
      simp [List.flatten_append, List.count_append] at h4x ⊢
      omega
  | close emitted calls retd =>
    exact ⟨h1, h2, h3, h4, fun _ => ⟨rfl, rfl⟩⟩

/-- Every reachable state of a Pipe stage satisfies the safety invariant. -/
theorem reachable_inv [DecidableEq β] {n : Nat} {fn : α → List β} {input : List α}
    {s : PState α β} (h : Reachable n fn input s) : Inv n fn input s := by
  induction h with
  | refl => exact inv_init n fn input
  | tail hr hstep ih => exact inv_step ih hstep

/-- With a single sequential worker (a `Do` stage), every transition
preserves the stronger list-level accounting: output so far, the in-flight
remainder, and the emissions of the unpulled input concatenate, in order, to
the full emission stream. -/
theorem inv_ord_step {fn : α → List β} {input : List α} {s s' : PState α β}
    (hb : s.busy.length ≤ 1)
    (ho : s.emitted ++ s.busy.flatten ++ s.pending.flatMap fn = input.flatMap fn)
    (hs : Step 1 fn s s') :
    s'.emitted ++ s'.busy.flatten ++ s'.pending.flatMap fn = input.flatMap fn := by
  cases hs with
  | pull a rest busy emitted calls retd hn =>
    have hbusy : busy = [] := List.length_eq_zero.mp (Nat.lt_one_iff.mp hn)
    subst hbusy
    simp [List.flatMap_cons] at ho ⊢
    simpa [List.append_assoc] using ho
  | emit pending l1 b bs l2 emitted calls retd =>
    have hl : l1.length = 0 ∧ l2.length = 0 := by
      simp [List.length_append] at hb
      omega
    have hl1 : l1 = [] := List.length_eq_zero.mp hl.1
    have hl2 : l2 = [] := List.length_eq_zero.mp hl.2
    subst hl1
    subst hl2
    simp at ho ⊢
    simpa [List.append_assoc] using ho
  | ret pending l1 l2 emitted calls retd =>
    simp [List.flatten_append] at ho ⊢
    simpa using ho
  | close emitted calls retd =>
    exact ho

/-- Every state reachable with a single sequential worker satisfies the
list-level accounting invariant. -/
theorem reachable_inv_ord {fn : α → List β} {input : List α} {s : PState α β}
    (h : Reachable 1 fn input s) :
    s.emitted ++ s.busy.flatten ++ s.pending.flatMap fn = input.flatMap fn := by
  letI : DecidableEq β := Classical.decEq β
  induction h with
  | refl => simp [fromSlice]
  | tail hr hstep ih => exact inv_ord_step (reachable_inv hr).2.2.1 ih hstep

/-- C4: for every `ParDo(n, fn)` stage over `m` input items with any
`n ≥ 1`, once the stage's output has closed it equals, as a multiset, the
multiset of all of `fn`'s emissions over the input (no ordering guarantee),
and closing happened only after the input was fully drained and every worker
joined — that is, only after exactly `m` invocations of `fn` returned. -/
theorem parDo_multiset_join {α β : Type} (n : Nat) (fn : α → List β) (input : List α)
    (s : PState α β) (hn : 1 ≤ n) (h : Reachable n fn input s) (hc : s.closed = true) :
    (s.emitted : Multiset β) = ((input.flatMap fn : List β) : Multiset β) ∧
      s.pending = [] ∧ s.busy = [] ∧ s.retd = input.length := by
  letI : DecidableEq β := Classical.decEq β
  obtain ⟨h1, h2, h3, h4, h5⟩ := reachable_inv h
  obtain ⟨hp, hb⟩ := h5 hc
  refine ⟨?_, hp, hb, ?_⟩
  · rw [Multiset.coe_eq_coe]
    refine List.perm_iff_count.mpr (fun x => ?_)
    have h4x := h4 x
    rw [hp, hb] at h4x
    simpa using h4x
  · rw [hp, hb] at h2
    simpa using h2

/-- C4 witness: a two-worker run over `[1, 2]` that emits out of order,
reaching a closed state whose output `[2, 1]` is multiset-equal to the
emissions and whose return count is the input length. -/
theorem parDo_multiset_join_witness :
    ((PState.mk [] [] [2, 1] [1, 2] 2 true : PState Nat Nat).emitted : Multiset Nat)
        = (([1, 2].flatMap (fun a => [a]) : List Nat) : Multiset Nat) ∧
      (PState.mk [] [] [2, 1] [1, 2] 2 true : PState Nat Nat).pending = [] ∧
      (PState.mk [] [] [2, 1] [1, 2] 2 true : PState Nat Nat).busy = [] ∧
      (PState.mk [] [] [2, 1] [1, 2] 2 true : PState Nat Nat).retd = [1, 2].length := by
  have h1 : Relation.ReflTransGen (Step 2 (fun a : Nat => [a])) (fromSlice [1, 2])
      ⟨[2], [[1]], [], [1], 0, false⟩ :=
    Relation.ReflTransGen.single (Step.pull 1 [2] [] [] [] 0 (by simp))
  have h2 : Relation.ReflTransGen (Step 2 (fun a : Nat => [a])) (fromSlice [1, 2])
      ⟨[], [[1], [2]], [], [1, 2], 0, false⟩ :=
    h1.tail (Step.pull 2 [] [[1]] [] [1] 0 (by simp))
  have h3 : Relation.ReflTransGen (Step 2 (fun a : Nat => [a])) (fromSlice [1, 2])
      ⟨[], [[1], []], [2], [1, 2], 0, false⟩ :=
    h2.tail (Step.emit [] [[1]] 2 [] [] [] [1, 2] 0)
  have h4 : Relation.ReflTransGen (Step 2 (fun a : Nat => [a])) (fromSlice [1, 2])
      ⟨[], [[], []], [2, 1], [1, 2], 0, false⟩ :=
    h3.tail (Step.emit [] [] 1 [] [[]] [2] [1, 2] 0)
  have h5 : Relation.ReflTransGen (Step 2 (fun a : Nat => [a])) (fromSlice [1, 2])
      ⟨[], [[]], [2, 1], [1, 2], 1, false⟩ :=
    h4.tail (Step.ret [] [] [[]] [2, 1] [1, 2] 0)
  have h6 : Relation.ReflTransGen (Step 2 (fun a : Nat => [a])) (fromSlice [1, 2])
      ⟨[], [], [2, 1], [1, 2], 2, false⟩ :=
    h5.tail (Step.ret [] [] [] [2, 1] [1, 2] 1)
  have h7 : Reachable 2 (fun a : Nat => [a]) [1, 2] ⟨[], [], [2, 1], [1, 2], 2, true⟩ :=
    h6.tail (Step.close [2, 1] [1, 2] 2)
  exact parDo_multiset_join 2 (fun a => [a]) [1, 2] ⟨[], [], [2, 1], [1, 2], 2, true⟩
    (by omega) h7 rfl

/-- C5: a pipeline built as `FromSlice` followed by a `Do` stage whose `fn`
emits its input unchanged yields, once closed, exactly the original items in
their original order; the single sequential worker called `fn` exactly once
per input item, in input order, and the output closed only once the input
was exhausted and the final call had returned. -/
theorem do_identity_order {α : Type} (input : List α) (s : PState α α)
    (h : Reachable 1 (fun a => [a]) input s) (hc : s.closed = true) :
    s.emitted = input ∧ s.calls = input ∧ s.pending = [] ∧ s.retd = input.length := by
  letI : DecidableEq α := Classical.decEq α
  obtain ⟨h1, h2, h3, h4, h5⟩ := reachable_inv h
  obtain ⟨hp, hb⟩ := h5 hc
  have ho := reachable_inv_ord h
  rw [hp, hb] at ho
  simp at ho
  refine ⟨?_, ?_, hp, ?_⟩
  · exact ho
  · rw [hp] at h1
    simpa using h1
  · rw [hp, hb] at h2
    simpa using h2

/-- C5 witness: the sequential identity run over `[0, 1]` reaches a closed
state whose output and call log are `[0, 1]` in order, with both calls
returned. -/
theorem do_identity_order_witness :
    (PState.mk [] [] [0, 1] [0, 1] 2 true : PState Nat Nat).emitted = [0, 1] ∧
      (PState.mk [] [] [0, 1] [0, 1] 2 true : PState Nat Nat).calls = [0, 1] ∧
      (PState.mk [] [] [0, 1] [0, 1] 2 true : PState Nat Nat).pending = [] ∧
      (PState.mk [] [] [0, 1] [0, 1] 2 true : PState Nat Nat).retd = [0, 1].length := by
  have h1 : Relation.ReflTransGen (Step 1 (fun a : Nat => [a])) (fromSlice [0, 1])
      ⟨[1], [[0]], [], [0], 0, false⟩ :=
    Relation.ReflTransGen.single (Step.pull 0 [1] [] [] [] 0 (by simp))
  have h2 : Relation.ReflTransGen (Step 1 (fun a : Nat => [a])) (fromSlice [0, 1])
      ⟨[1], [[]], [0], [0], 0, false⟩ :=
    h1.tail (Step.emit [1] [] 0 [] [] [] [0] 0)
  have h3 : Relation.ReflTransGen (Step 1 (fun a : Nat => [a])) (fromSlice [0, 1])
      ⟨[1], [], [0], [0], 1, false⟩ :=
    h2.tail (Step.ret [1] [] [] [0] [0] 0)
  have h4 : Relation.ReflTransGen (Step 1 (fun a : Nat => [a])) (fromSlice [0, 1])
      ⟨[], [[1]], [0], [0, 1], 1, false⟩ :=
    h3.tail (Step.pull 1 [] [] [0] [0] 1 (by simp))
  have h5 : Relation.ReflTransGen (Step 1 (fun a : Nat => [a])) (fromSlice [0, 1])
      ⟨[], [[]], [0, 1], [0, 1], 1, false⟩ :=
    h4.tail (Step.emit [] [] 1 [] [] [0] [0, 1] 1)
  have h6 : Relation.ReflTransGen (Step 1 (fun a : Nat => [a])) (fromSlice [0, 1])
      ⟨[], [], [0, 1], [0, 1], 2, false⟩ :=
    h5.tail (Step.ret [] [] [] [0, 1] [0, 1] 1)
  have h7 : Reachable 1 (fun a : Nat => [a]) [0, 1] ⟨[], [], [0, 1], [0, 1], 2, true⟩ :=
    h6.tail (Step.close [0, 1] [0, 1] 2)
  exact do_identity_order [0, 1] ⟨[], [], [0, 1], [0, 1], 2, true⟩ h7 rfl

end Pipe

namespace CommandReg

/-- C9: every Add method of the command Registry is atomic — if appending
the given commands would make validation fail (a hotkey duplicated among the
rebuild and global commands), the method returns a non-nil error and leaves
all four command lists exactly as they were before the call; if validation
passes, it returns nil and the new commands are appended after the existing
ones in argument order. -/
theorem registry_add_atomic {Ctx Rb : Type} (reg : Registry Ctx Rb)
    (rs : List (RebuildCmd Ctx Rb)) (gr : List (RebuildGroupCmd Ctx Rb))
    (bs : List (BenchmarkCmd Ctx)) (gs : List (GlobalCmd Ctx)) :
    ((∀ e, ({ reg with globalCmds := reg.globalCmds ++ gs } : Registry Ctx Rb).Validate
          = .error e → reg.AddGlobals gs = (reg, some e)) ∧
      (({ reg with globalCmds := reg.globalCmds ++ gs } : Registry Ctx Rb).Validate = .ok () →
        reg.AddGlobals gs = ({ reg with globalCmds := reg.globalCmds ++ gs }, none))) ∧
    ((∀ e, ({ reg with rebuildCmds := reg.rebuildCmds ++ rs } : Registry Ctx Rb).Validate
          = .error e → reg.AddRebuilds rs = (reg, some e)) ∧
      (({ reg with rebuildCmds := reg.rebuildCmds ++ rs } : Registry Ctx Rb).Validate = .ok () →
        reg.AddRebuilds rs = ({ reg with rebuildCmds := reg.rebuildCmds ++ rs }, none))) ∧
    ((∀ e, ({ reg with rebuildGroupCmds := reg.rebuildGroupCmds ++ gr } :
            Registry Ctx Rb).Validate = .error e →
        reg.AddRebuildGroups gr = (reg, some e)) ∧
      (({ reg with rebuildGroupCmds := reg.rebuildGroupCmds ++ gr } :
            Registry Ctx Rb).Validate = .ok () →
        reg.AddRebuildGroups gr
          = ({ reg with rebuildGroupCmds := reg.rebuildGroupCmds ++ gr }, none))) ∧
    ((∀ e, ({ reg with benchmarkCmds := reg.benchmarkCmds ++ bs } : Registry Ctx Rb).Validate
          = .error e → reg.AddBenchmarks bs = (reg, some e)) ∧
      (({ reg with benchmarkCmds := reg.benchmarkCmds ++ bs } : Registry Ctx Rb).Validate
          = .ok () →
        reg.AddBenchmarks bs = ({ reg with benchmarkCmds := reg.benchmarkCmds ++ bs }, none))) := by
  refine ⟨⟨?_, ?_⟩, ⟨?_, ?_⟩, ⟨?_, ?_⟩, ⟨?_, ?_⟩⟩
  · intro e he
    simp only [Registry.AddGlobals]
    rw [he]
  · intro hok
    simp only [Registry.AddGlobals]
    rw [hok]
  · intro e he
    simp only [Registry.AddRebuilds]
    rw [he]
  · intro hok
    simp only [Registry.AddRebuilds]
    rw [hok]
  · intro e he
    simp only [Registry.AddRebuildGroups]
    rw [he]
  · intro hok
    simp only [Registry.AddRebuildGroups]
    rw [hok]
  · intro e he
    simp only [Registry.AddBenchmarks]
    rw [he]
  · intro hok
    simp only [Registry.AddBenchmarks]
    rw [hok]

/-- C9 witness: adding a global command whose hotkey collides with an
existing rebuild command fails with the formatted duplicate-hotkey error and
leaves the registry untouched, while a fresh hotkey is appended with a nil
error. -/
theorem registry_add_atomic_witness :
    regEx.AddGlobals [gDup] = (regEx, some "duplicate hotkey: a (dup)") ∧
      regEx.AddGlobals [gOk] = ({ regEx with globalCmds := regEx.globalCmds ++ [gOk] }, none) := by
  constructor
  · exact (registry_add_atomic regEx [] [] [] [gDup]).1.1 "duplicate hotkey: a (dup)" rfl
  · exact (registry_add_atomic regEx [] [] [] [gOk]).1.2 rfl

end CommandReg

namespace Archive

/-- The empty section satisfies the invariant. -/
theorem sinv_new : SInv NewSection := by
  refine ⟨List.nodup_nil, ?_⟩
  intro k
  simp [NewSection]

/-- `Set` preserves the section invariant. -/
theorem sinv_set (s : Section) (h : SInv s) (name value : String) :
    SInv (s.Set name value) := by
  obtain ⟨hnd, hmem⟩ := h
  unfold Section.Set
  cases hattr : s.Attributes name with
  | some v0 =>
    refine ⟨hnd, ?_⟩
    intro k
    by_cases hk : k = name
    · subst hk
      have hk_mem : k ∈ s.Order := (hmem k).mp (by simp [hattr])
      simp [hk_mem]
    · simp only [Section.Attributes, if_neg hk]
      exact hmem k
  | none =>
    have hnm : name ∉ s.Order := by
      intro hin
      have := (hmem name).mpr hin
      rw [hattr] at this
      simp at this
    refine ⟨?_, ?_⟩
    · simp [List.nodup_append, hnd, hnm]
    · intro k
      by_cases hk : k = name
      · subst hk
        simp
      · simp only [Section.Attributes, Section.Order, if_neg hk, List.mem_append,
          List.mem_singleton, hk, or_false]
        exact hmem k

/-- `Delete` preserves the section invariant. -/
theorem sinv_delete (s : Section) (h : SInv s) (name : String) :
    SInv (s.Delete name) := by
  obtain ⟨hnd, hmem⟩ := h
  unfold Section.Delete
  cases hattr : s.Attributes name with
  | none => exact ⟨hnd, hmem⟩
  | some v0 =>
    refine ⟨hnd.erase name, ?_⟩
    intro k
    by_cases hk : k = name
    · subst hk
      simp [hnd.mem_erase_iff]
    · simp only [Section.Attributes, Section.Order, if_neg hk, hnd.mem_erase_iff, hk,
        ne_eq, not_false_iff, true_and]
      exact hmem k

/-- Every mutation preserves the section invariant. -/
theorem sinv_apply (s : Section) (h : SInv s) (op : Op) : SInv (applyOp s op) := by
  cases op with
  | set n v => exact sinv_set s h n v
  | del n => exact sinv_delete s h n

/-- Any mutation sequence from an invariant-satisfying section preserves the
invariant. -/
theorem sinv_foldl (ops : List Op) (s : Section) (h : SInv s) :
    SInv (ops.foldl applyOp s) := by
  induction ops generalizing s with
  | nil => exact h
  | cons op rest ih => exact ih (applyOp s op) (sinv_apply s h op)

/-- Every section produced by `NewSection` plus mutations satisfies the
invariant. -/
theorem sinv_run (ops : List Op) : SInv (runOps ops) :=
  sinv_foldl ops NewSection sinv_new

/-- C10: for every Section produced by `NewSection` and any sequence of Set
and Delete operations, the invariant holds that Order contains exactly the
keys of the Attributes map, each exactly once; Set on an already-present
name updates its value without changing its position in Order, and Delete
removes the name from both Attributes and Order while leaving all other
entries and their relative order unchanged. -/
theorem section_ops (ops : List Op) (s : Section) (hs : s = runOps ops) :
    (s.Order.Nodup ∧ ∀ k, (s.Attributes k).isSome ↔ k ∈ s.Order) ∧
    (∀ name value, (s.Attributes name).isSome →
      (s.Set name value).Order = s.Order ∧
      (s.Set name value).Attributes name = some value ∧
      ∀ k, k ≠ name → (s.Set name value).Attributes k = s.Attributes k) ∧
    (∀ name, (s.Delete name).Attributes name = none ∧
      (s.Delete name).Order = s.Order.erase name ∧
      name ∉ (s.Delete name).Order ∧
      ∀ k, k ≠ name → (s.Delete name).Attributes k = s.Attributes k ∧
        ((k ∈ (s.Delete name).Order) ↔ k ∈ s.Order)) := by
  subst hs
  obtain ⟨hnd, hmem⟩ := sinv_run ops
  refine ⟨⟨hnd, hmem⟩, ?_, ?_⟩
  · intro name value hsome
    obtain ⟨v0, hv0⟩ := Option.isSome_iff_exists.mp hsome
    unfold Section.Set
    rw [hv0]
    exact ⟨rfl, by simp, fun k hk => by simp [if_neg hk]⟩
  · intro name
    unfold Section.Delete
    cases hattr : (runOps ops).Attributes name with
    | none =>
      have hnm : name ∉ (runOps ops).Order := by
        intro hin
        have := (hmem name).mpr hin
        rw [hattr] at this
        simp at this
      rw [List.erase_of_not_mem hnm]
      exact ⟨hattr, rfl, hnm, fun k _ => ⟨rfl, Iff.rfl⟩⟩
    | some v0 =>
      refine ⟨by simp, rfl, ?_, ?_⟩
      · simp [hnd.mem_erase_iff]
      · intro k hk
        constructor
        · simp [if_neg hk]
        · simp [hnd.mem_erase_iff, hk]

/-- C10 witness: with the section built by setting `a` then `b`, re-setting
`a` keeps its position and updates its value, and deleting `a` erases it
from Order while leaving `b` untouched. -/
theorem section_ops_witness :
    ((runOps [Op.set "a" "1", Op.set "b" "2"]).Set "a" "3").Order
        = (runOps [Op.set "a" "1", Op.set "b" "2"]).Order ∧
      ((runOps [Op.set "a" "1", Op.set "b" "2"]).Set "a" "3").Attributes "a" = some "3" ∧
      ((runOps [Op.set "a" "1", Op.set "b" "2"]).Delete "a").Order
        = (runOps [Op.set "a" "1", Op.set "b" "2"]).Order.erase "a" ∧
      ((runOps [Op.set "a" "1", Op.set "b" "2"]).Delete "a").Attributes "b"
        = (runOps [Op.set "a" "1", Op.set "b" "2"]).Attributes "b" := by
  obtain ⟨hinv, hset, hdel⟩ :=
    section_ops [Op.set "a" "1", Op.set "b" "2"] (runOps [Op.set "a" "1", Op.set "b" "2"]) rfl
  obtain ⟨ho, ha, hothers⟩ := hset "a" "3" rfl
  obtain ⟨hdn, hde, hdnm, hdo⟩ := hdel "a"
  exact ⟨ho, ha, hde, (hdo "b" (by decide)).1⟩

end Archive
